import Mathlib

/-!
Verification of the CrolinKit thread-pool core (src/core/thread).

The development shallowly embeds the C implementation found in
`src/core/thread/include/thread.h` (header plus inlined `thread.c`) and the
internal structures of `thread_internal.h`:

* `QueueState` groups the `head`, `tail` and `task_queue_size` fields of
  `struct thread_pool_s`; the singly linked list reachable from `head` is
  represented by the list of the `task_t` values stored in its nodes, and
  `tail` records whether the tail pointer is NULL and, when it is not, the
  task held by the node it points to.
* The queue operations `task_enqueue_internal`, `task_dequeue_internal` and
  `task_queue_destroy_internal` are translated line by line.  `malloc`
  outcomes are made explicit through a Boolean `allocOk` argument.
* The public API functions `thread_pool_create`, `thread_pool_add_task`,
  `thread_pool_destroy` and `thread_pool_get_running_task_names` are
  translated as state transformers over `PoolState`.  A NULL handle is an
  `Option` argument.  C strings are modelled by the character content that
  precedes their terminating NUL, so `strncpy(dst, s, n)` followed by an
  explicit terminator write stores `s.take n`.
* The concurrent behaviour of the worker threads
  (`worker_thread_function`) interleaved with submissions and destruction is
  modelled by the small-step interpreter `schedStep`: each event is one
  critical section executed under `pool->lock`, which serialises all accesses
  in the C code as well.  Ghost logs record enqueues, dequeues, completed
  executions and tasks discarded by the destroy-time drain.
-/

/-- Maximum length of a task name, terminating NUL included
(`#define MAX_TASK_NAME_LEN 64`). -/
def MAX_TASK_NAME_LEN : Nat := 64

/-- `task_t`: the work item passed to `thread_pool_add_task` and stored in the
queue.  The C function pointer and the opaque argument are identified by
numeric codes; `task_name` is the NUL-terminated character content of the
`char task_name[MAX_TASK_NAME_LEN]` buffer. -/
structure task_t where
  function : Nat
  arg : Nat
  task_name : List Char
  deriving DecidableEq, Repr

/-- The queue fields of `struct thread_pool_s`: `head` is the list of tasks
stored in the linked nodes reachable from the head pointer (empty list =
NULL head pointer), `tail` is `none` when the tail pointer is NULL and
otherwise carries the task stored in the node the tail pointer designates,
and `task_queue_size` is the `int task_queue_size` field. -/
structure QueueState where
  head : List task_t
  tail : Option task_t
  task_queue_size : Int
  deriving DecidableEq, Repr

/-- The queue of a freshly calloc-ed pool: `head = NULL`, `tail = NULL`,
`task_queue_size = 0` (thread.c, `thread_pool_create`). -/
def emptyQueue : QueueState :=
  { head := [], tail := none, task_queue_size := 0 }

/-- `task_enqueue_internal` (thread.c): allocates a node (`allocOk` is the
malloc outcome), returns -1 leaving the queue untouched when the allocation
fails, otherwise links the node after `tail` (or installs it as both `head`
and `tail` when the tail pointer is NULL) and increments
`task_queue_size`. -/
def task_enqueue_internal (pool : QueueState) (task : task_t) (allocOk : Bool) :
    Int × QueueState :=
  if !allocOk then
    (-1, pool)
  else
    match pool.tail with
    | none =>
      (0, { head := [task]
            tail := some task
            task_queue_size := pool.task_queue_size + 1 })
    | some _ =>
      (0, { head := pool.head ++ [task]
            tail := some task
            task_queue_size := pool.task_queue_size + 1 })

/-- `task_dequeue_internal` (thread.c): returns NULL for an empty queue
(defensive check), returns NULL leaving the node in place when the malloc of
the returned `task_t` copy fails, and otherwise unlinks the head node,
clears `tail` when the queue became empty, and decrements
`task_queue_size`. -/
def task_dequeue_internal (pool : QueueState) (allocOk : Bool) :
    Option task_t × QueueState :=
  match pool.head with
  | [] => (none, pool)
  | t :: rest =>
    if !allocOk then
      (none, pool)
    else
      (some t,
       { head := rest
         tail := if rest.isEmpty then none else pool.tail
         task_queue_size := pool.task_queue_size - 1 })

/-- `task_queue_destroy_internal` (thread.c): frees every remaining node and
resets `head`, `tail` and `task_queue_size`. -/
def task_queue_destroy_internal (_pool : QueueState) : QueueState :=
  { head := [], tail := none, task_queue_size := 0 }

/-- The remaining fields of `struct thread_pool_s` needed by the claims
(`thread_internal.h`), with the three queue fields grouped in `task_queue`.
`freeCount` is a ghost counter of how many times the destruction path of
`thread_pool_destroy` has released the pool's storage (`free(pool)`); the
model keeps the struct contents observable afterwards, exactly as the C
memory still holds them when a second call dereferences the stale handle. -/
structure PoolState where
  thread_count : Int
  task_queue : QueueState
  shutdown : Bool
  started : Int
  running_task_names : List (List Char)
  freeCount : Nat
  deriving DecidableEq, Repr

/-- The name-preparation step of `thread_pool_add_task` (thread.c lines
514-521): a NULL name is replaced by "unnamed_task", any supplied name is
copied with `strncpy(dst, src, MAX_TASK_NAME_LEN - 1)` and explicitly
NUL-terminated, i.e. truncated to its first `MAX_TASK_NAME_LEN - 1`
characters. -/
def prepare_task_name (task_name : Option (List Char)) : List Char :=
  match task_name with
  | some s => s.take (MAX_TASK_NAME_LEN - 1)
  | none => (String.toList "unnamed_task").take (MAX_TASK_NAME_LEN - 1)

/-- `thread_pool_create` (thread.c), success path: rejects a non-positive
thread count, otherwise builds the zero-initialised pool with every
`running_task_names` slot set to "[idle]" (copied with
`strncpy(dst, "[idle]", MAX_TASK_NAME_LEN - 1)` plus an explicit
terminator) and spawns the workers.  The allocation / pthread_create
failure paths unwind and return NULL; no claim depends on the unwind, so
the model covers the successful executions. -/
def thread_pool_create (num_threads : Int) : Option PoolState :=
  if num_threads ≤ 0 then
    none
  else
    some
      { thread_count := num_threads
        task_queue := emptyQueue
        shutdown := false
        started := num_threads
        running_task_names :=
          List.replicate num_threads.toNat
            ((String.toList "[idle]").take (MAX_TASK_NAME_LEN - 1))
        freeCount := 0 }

/-- `thread_pool_add_task` (thread.c): rejects a NULL pool or NULL function,
rejects under the lock when the shutdown flag is set, builds the task with
`prepare_task_name`, and calls `task_enqueue_internal` (whose node
allocation outcome is `allocOk`), propagating its failure.  On success it
signals one waiting worker and returns 0. -/
def thread_pool_add_task (pool : Option PoolState) (function : Option Nat)
    (arg : Nat) (task_name : Option (List Char)) (allocOk : Bool) :
    Int × Option PoolState :=
  match pool with
  | none => (-1, none)
  | some p =>
    match function with
    | none => (-1, some p)
    | some f =>
      if p.shutdown then
        (-1, some p)
      else
        let new_task : task_t :=
          { function := f
            arg := arg
            task_name := prepare_task_name task_name }
        let r := task_enqueue_internal p.task_queue new_task allocOk
        if r.1 = 0 then
          (0, some { p with task_queue := r.2 })
        else
          (-1, some { p with task_queue := r.2 })

/-- `thread_pool_destroy` (thread.c): returns -1 only for a NULL pool;
returns 0 immediately (no state change, nothing freed) when the shutdown
flag is already set; otherwise sets the flag, broadcasts, joins every
worker (the workers' own activity during the join is the subject of the
scheduler model below), frees the remaining queue nodes with
`task_queue_destroy_internal`, and releases the name slots, the thread
array and the pool structure - counted once in `freeCount`. -/
def thread_pool_destroy (pool : Option PoolState) : Int × Option PoolState :=
  match pool with
  | none => (-1, none)
  | some p =>
    if p.shutdown then
      (0, some p)
    else
      let p1 : PoolState := { p with shutdown := true }
      let p2 : PoolState :=
        { p1 with task_queue := task_queue_destroy_internal p1.task_queue }
      (0, some { p2 with freeCount := p2.freeCount + 1 })

/-- `thread_pool_get_running_task_names` (thread.c): NULL pool gives NULL;
otherwise each slot is copied under the lock with
`strncpy(copy, slot, MAX_TASK_NAME_LEN)` followed by a defensive
`copy[MAX_TASK_NAME_LEN - 1] = 0`, so the copy holds the slot's first
`MAX_TASK_NAME_LEN - 1` characters.  The mid-copy allocation-failure path
releases the partial array and returns NULL; no claim depends on it, so the
model covers the successful executions. -/
def thread_pool_get_running_task_names (pool : Option PoolState) :
    Option (List (List Char)) :=
  match pool with
  | none => none
  | some p =>
    some (p.running_task_names.map (fun s => s.take (MAX_TASK_NAME_LEN - 1)))

/-- Phase of one worker thread inside `worker_thread_function`:
`atLoop` - at the top of the `while (1)` loop, about to take the lock and
evaluate the wait / exit / dequeue conditions;
`running t` - executing `t.function(t.arg)` outside the lock;
`exited` - returned via `pthread_exit`. -/
inductive WorkerPhase where
  | atLoop : WorkerPhase
  | running : task_t → WorkerPhase
  | exited : WorkerPhase
  deriving DecidableEq, Repr

/-- Tasks currently being executed by the workers, in worker order. -/
def inflight : List WorkerPhase → List task_t
  | [] => []
  | WorkerPhase.running t :: ws => t :: inflight ws
  | WorkerPhase.atLoop :: ws => inflight ws
  | WorkerPhase.exited :: ws => inflight ws

/-- Whether every worker thread has exited (so `pthread_join` on all of them
has returned inside `thread_pool_destroy`). -/
def allExited : List WorkerPhase → Bool
  | [] => true
  | WorkerPhase.exited :: ws => allExited ws
  | WorkerPhase.atLoop :: _ => false
  | WorkerPhase.running _ :: _ => false

/-- Global state of the pool together with its workers and ghost history.
`q`, `shutdown` are the shared fields guarded by `pool->lock`; `workers`
holds one `WorkerPhase` per worker thread; `destroyed` records that
`thread_pool_destroy` has passed the join and run the drain.  Ghost logs:
`enqLog` tasks successfully enqueued, in order; `enqCalls` number of calls
to `task_enqueue_internal` (failed allocations included); `deqLog` tasks
successfully dequeued by workers, in dispatch order - each such task's
action is then invoked unconditionally (thread.c lines 294-309); `compLog`
tasks whose action invocation has returned, in completion order; `discLog`
tasks freed unexecuted by the destroy-time drain. -/
structure SchedState where
  q : QueueState
  shutdown : Bool
  workers : List WorkerPhase
  destroyed : Bool
  enqLog : List task_t
  enqCalls : Nat
  deqLog : List task_t
  compLog : List task_t
  discLog : List task_t
  deriving DecidableEq, Repr

/-- Events of the interleaving semantics.  Each event is one critical
section under `pool->lock` (plus, for `complete`, the unlocked action run
that precedes it):
`submit t aOk` - a caller runs `thread_pool_add_task` with a valid pool and
function, building task `t`; `aOk` is the node-malloc outcome;
`dispatch w aOk` - worker `w` passes the wait loop with a non-empty queue
and calls `task_dequeue_internal`; `aOk` is the task-copy malloc outcome;
`complete w` - worker `w`'s action invocation returns and it re-locks to
reset its status slot;
`exitWorker w` - worker `w` observes `shutdown && task_queue_size == 0`
and calls `pthread_exit`;
`setShutdown` - `thread_pool_destroy` takes the lock, sets the flag and
broadcasts (or returns immediately when the flag is already set);
`drain` - after every worker has been joined, `thread_pool_destroy` runs
`task_queue_destroy_internal` and frees the pool. -/
inductive Ev where
  | submit : task_t → Bool → Ev
  | dispatch : Nat → Bool → Ev
  | complete : Nat → Ev
  | exitWorker : Nat → Ev
  | setShutdown : Ev
  | drain : Ev
  deriving DecidableEq, Repr

/-- One step of the interleaving semantics.  `none` means the event is not
enabled in this state (the worker is not in the required phase, the queue
is empty so the worker stays blocked in `pthread_cond_wait`, or the pool
memory has already been released). -/
def schedStep (s : SchedState) : Ev → Option SchedState
  | Ev.submit t aOk =>
    if s.destroyed then
      none
    else if s.shutdown then
      some s
    else
      let r := task_enqueue_internal s.q t aOk
      if r.1 = 0 then
        some { s with
                 q := r.2
                 enqLog := s.enqLog ++ [t]
                 enqCalls := s.enqCalls + 1 }
      else
        some { s with q := r.2, enqCalls := s.enqCalls + 1 }
  | Ev.dispatch w aOk =>
    match s.workers.get? w with
    | some WorkerPhase.atLoop =>
      if s.q.task_queue_size = 0 then
        none
      else
        let r := task_dequeue_internal s.q aOk
        match r.1 with
        | some t =>
          some { s with
                   q := r.2
                   workers := s.workers.set w (WorkerPhase.running t)
                   deqLog := s.deqLog ++ [t] }
        | none =>
          if s.shutdown then
            some { s with workers := s.workers.set w WorkerPhase.exited }
          else
            some s
    | _ => none
  | Ev.complete w =>
    match s.workers.get? w with
    | some (WorkerPhase.running t) =>
      some { s with
               workers := s.workers.set w WorkerPhase.atLoop
               compLog := s.compLog ++ [t] }
    | _ => none
  | Ev.exitWorker w =>
    match s.workers.get? w with
    | some WorkerPhase.atLoop =>
      if s.shutdown && s.q.task_queue_size = 0 then
        some { s with workers := s.workers.set w WorkerPhase.exited }
      else
        none
    | _ => none
  | Ev.setShutdown =>
    if s.destroyed then
      none
    else if s.shutdown then
      some s
    else
      some { s with shutdown := true }
  | Ev.drain =>
    if s.shutdown && allExited s.workers && !s.destroyed then
      some { s with
               q := task_queue_destroy_internal s.q
               discLog := s.discLog ++ s.q.head
               destroyed := true }
    else
      none

/-- Initial state right after a successful `thread_pool_create k`:
empty queue, flag clear, `k` workers at the top of their loop. -/
def initSched (k : Nat) : SchedState :=
  { q := emptyQueue
    shutdown := false
    workers := List.replicate k WorkerPhase.atLoop
    destroyed := false
    enqLog := []
    enqCalls := 0
    deqLog := []
    compLog := []
    discLog := [] }

/-- Run a sequence of events; `none` as soon as an event is not enabled. -/
def schedRun : SchedState → List Ev → Option SchedState
  | s, [] => some s
  | s, e :: es =>
    match schedStep s e with
    | none => none
    | some s2 => schedRun s2 es

/-- Operations applied to the queue fields over the pool's lifetime, as
performed by `thread_pool_add_task` (enqueue with its node-malloc outcome),
the workers (dequeue with its copy-malloc outcome) and
`thread_pool_destroy` (the final drain). -/
inductive QOp where
  | enq : task_t → Bool → QOp
  | deq : Bool → QOp
  | drainQ : QOp
  deriving DecidableEq, Repr

/-- Effect of one queue operation on the queue fields. -/
def applyQOp (q : QueueState) : QOp → QueueState
  | QOp.enq t aOk => (task_enqueue_internal q t aOk).2
  | QOp.deq aOk => (task_dequeue_internal q aOk).2
  | QOp.drainQ => task_queue_destroy_internal q

/-- Queue fields reached from the freshly created pool after a sequence of
queue operations. -/
def runQOps (ops : List QOp) : QueueState :=
  ops.foldl applyQOp emptyQueue

/-- Well-formedness of the queue fields: the head pointer is NULL exactly
when the tail pointer is, and exactly when the recorded size is zero. -/
def queueWF (q : QueueState) : Prop :=
  (q.head = [] ↔ q.tail = none) ∧ (q.head = [] ↔ q.task_queue_size = 0)

/-- Strengthened queue invariant used to prove `queueWF`: the recorded size
is the length of the linked list. -/
def QInv (q : QueueState) : Prop :=
  (q.head = [] ↔ q.tail = none) ∧ q.task_queue_size = (q.head.length : Int)

/-- Shutdown flag read through a possibly NULL handle (a NULL pool has no
flag; the C code never reaches the flag test in that case). -/
def poolShutdown : Option PoolState → Bool
  | none => false
  | some p => p.shutdown

/-- Allocation outcome carried by an event (`true` for events that perform
no allocation). -/
def evAllocOk : Ev → Bool
  | Ev.submit _ aOk => aOk
  | Ev.dispatch _ aOk => aOk
  | Ev.complete _ => true
  | Ev.exitWorker _ => true
  | Ev.setShutdown => true
  | Ev.drain => true

/-- Whether every allocation performed along the event sequence succeeds. -/
def noAllocFailures (evs : List Ev) : Bool :=
  evs.all evAllocOk

/-- Inductive invariant of the interleaving semantics: the queue fields are
coherent, the enqueue log splits into the dequeued tasks, the tasks still
queued and the tasks discarded by the drain, nothing is discarded before
the drain, after the drain the flag is set, every worker has exited and the
queue is empty, and each dequeued task is either completed or currently
in flight. -/
structure SchedInv (s : SchedState) : Prop where
  qinv : QInv s.q
  ledger : s.enqLog = s.deqLog ++ s.q.head ++ s.discLog
  disc_nil : s.destroyed = false → s.discLog = []
  destroyed_shutdown : s.destroyed = true → s.shutdown = true
  destroyed_exited : s.destroyed = true → allExited s.workers = true
  destroyed_head : s.destroyed = true → s.q.head = []
  count : s.deqLog.length = s.compLog.length + (inflight s.workers).length

/-- Additional invariant holding when every allocation succeeds and the
pool has at least one worker: workers only disappear with the flag set and
an empty queue, so nothing is ever left for the drain to discard. -/
structure SchedInvA (s : SchedState) : Prop where
  base : SchedInv s
  exited_shutdown : allExited s.workers = true → s.shutdown = true
  exited_head : allExited s.workers = true → s.q.head = []
  disc_empty : s.discLog = []

/-- Additional invariant of a single-worker pool: the dequeue log is the
completion log followed by the task currently in flight, so completions
happen in dequeue order. -/
structure SchedInv1 (s : SchedState) : Prop where
  base : SchedInv s
  one_worker : s.workers.length = 1
  order : s.deqLog = s.compLog ++ inflight s.workers

/-- A concrete task used in the concrete executions below. -/
def tskA : task_t :=
  { function := 1, arg := 10, task_name := ['A'] }

/-- A second concrete task used in the concrete executions below. -/
def tskB : task_t :=
  { function := 2, arg := 20, task_name := ['B'] }

/-- One worker, one task queued, then Destroy sets the flag while the task
is still queued; the worker then drains and executes it before exiting. -/
def c1Events : List Ev :=
  [Ev.submit tskA true, Ev.setShutdown, Ev.dispatch 0 true,
   Ev.complete 0, Ev.exitWorker 0, Ev.drain]

/-- One successful submit, Destroy sets the flag, the worker's dequeue then
hits a malloc failure and exits, and the drain discards the task. -/
def c2CexEvents : List Ev :=
  [Ev.submit tskA true, Ev.setShutdown, Ev.dispatch 0 false, Ev.drain]

/-- Two successful submits followed by a complete Destroy in which every
allocation succeeds: both tasks run before the worker exits. -/
def c2WitEvents : List Ev :=
  [Ev.submit tskA true, Ev.submit tskB true, Ev.setShutdown,
   Ev.dispatch 0 true, Ev.complete 0, Ev.dispatch 0 true, Ev.complete 0,
   Ev.exitWorker 0, Ev.drain]

/-- Two tasks through a single worker, both completed, no shutdown. -/
def c3WitEvents : List Ev :=
  [Ev.submit tskA true, Ev.submit tskB true, Ev.dispatch 0 true,
   Ev.complete 0, Ev.dispatch 0 true, Ev.complete 0]

/-- Two successful enqueues, one successful dequeue and completion, then a
dequeue malloc failure under shutdown makes the worker exit and the drain
discards the second task. -/
def c7CexEvents : List Ev :=
  [Ev.submit tskA true, Ev.submit tskB true, Ev.setShutdown,
   Ev.dispatch 0 true, Ev.complete 0, Ev.dispatch 0 false, Ev.drain]

/-- A submit and a dispatch with every allocation succeeding. -/
def c7WitEvents : List Ev :=
  [Ev.submit tskA true, Ev.dispatch 0 true]

/-- A concrete live pool (as built by `thread_pool_create 2`). -/
def demoPool : PoolState :=
  { thread_count := 2
    task_queue := emptyQueue
    shutdown := false
    started := 2
    running_task_names := List.replicate 2 (String.toList "[idle]")
    freeCount := 0 }

/-- A concrete pool whose shutdown flag is already set. -/
def demoPoolShut : PoolState :=
  { demoPool with shutdown := true }

theorem list_get_set_self {α : Type} (ws : List α) (w : Nat) (x p : α)
    (h : ws.get? w = some p) : (ws.set w x).get? w = some x := by
  induction ws generalizing w with
  | nil => simp at h
  | cons a as ih =>
    cases w with
    | zero => rfl
    | succ n =>
      simp only [List.get?_cons_succ] at h
      simpa using ih n h

theorem inflight_set_run (ws : List WorkerPhase) (w : Nat) (t : task_t)
    (h : ws.get? w = some WorkerPhase.atLoop) :
    (inflight (ws.set w (WorkerPhase.running t))).length
      = (inflight ws).length + 1 := by
  induction ws generalizing w with
  | nil => simp at h
  | cons a as ih =>
    cases w with
    | zero =>
      simp only [List.get?_cons_zero, Option.some.injEq] at h
      subst h
      simp [inflight]
    | succ n =>
      simp only [List.get?_cons_succ] at h
      cases a <;> simp [inflight, List.set, ih n h]

theorem inflight_set_fin (ws : List WorkerPhase) (w : Nat) (t : task_t)
    (h : ws.get? w = some (WorkerPhase.running t)) :
    (inflight ws).length
      = (inflight (ws.set w WorkerPhase.atLoop)).length + 1 := by
  induction ws generalizing w with
  | nil => simp at h
  | cons a as ih =>
    cases w with
    | zero =>
      simp only [List.get?_cons_zero, Option.some.injEq] at h
      subst h
      simp [inflight]
    | succ n =>
      simp only [List.get?_cons_succ] at h
      cases a <;> simp [inflight, List.set, ih n h]

theorem inflight_set_exit (ws : List WorkerPhase) (w : Nat)
    (h : ws.get? w = some WorkerPhase.atLoop) :
    inflight (ws.set w WorkerPhase.exited) = inflight ws := by
  induction ws generalizing w with
  | nil => simp at h
  | cons a as ih =>
    cases w with
    | zero =>
      simp only [List.get?_cons_zero, Option.some.injEq] at h
      subst h
      simp [inflight]
    | succ n =>
      simp only [List.get?_cons_succ] at h
      cases a <;> simp [inflight, List.set, ih n h]

theorem allExited_false_of_atLoop (ws : List WorkerPhase) (w : Nat)
    (h : ws.get? w = some WorkerPhase.atLoop) : allExited ws = false := by
  induction ws generalizing w with
  | nil => simp at h
  | cons a as ih =>
    cases w with
    | zero =>
      simp only [List.get?_cons_zero, Option.some.injEq] at h
      subst h
      rfl
    | succ n =>
      simp only [List.get?_cons_succ] at h
      cases a with
      | atLoop => rfl
      | running t => rfl
      | exited => simpa [allExited] using ih n h

theorem allExited_false_of_running (ws : List WorkerPhase) (w : Nat)
    (t : task_t) (h : ws.get? w = some (WorkerPhase.running t)) :
    allExited ws = false := by
  induction ws generalizing w with
  | nil => simp at h
  | cons a as ih =>
    cases w with
    | zero =>
      simp only [List.get?_cons_zero, Option.some.injEq] at h
      subst h
      rfl
    | succ n =>
      simp only [List.get?_cons_succ] at h
      cases a with
      | atLoop => rfl
      | running u => rfl
      | exited => simpa [allExited] using ih n h

theorem inflight_nil_of_allExited (ws : List WorkerPhase)
    (h : allExited ws = true) : inflight ws = [] := by
  induction ws with
  | nil => rfl
  | cons a as ih =>
    cases a with
    | atLoop => simp [allExited] at h
    | running t => simp [allExited] at h
    | exited => simpa [inflight, allExited] using ih (by simpa [allExited] using h)

theorem qinv_applyQOp (q : QueueState) (op : QOp) (h : QInv q) :
    QInv (applyQOp q op) := by
  obtain ⟨hiff, hlen⟩ := h
  cases op with
  | enq t aOk =>
    cases aOk with
    | false => exact ⟨hiff, hlen⟩
    | true =>
      cases htl : q.tail with
      | none =>
        have hh : q.head = [] := hiff.mpr htl
        simp [applyQOp, task_enqueue_internal, htl, QInv, hlen, hh]
      | some u =>
        have hh : q.head ≠ [] := by
          intro hnil
          rw [hiff.mp hnil] at htl
          cases htl
        constructor
        · simp [applyQOp, task_enqueue_internal, htl]
        · simp [applyQOp, task_enqueue_internal, htl, hlen]
  | deq aOk =>
    cases hh : q.head with
    | nil => simpa [applyQOp, task_dequeue_internal, hh] using ⟨hiff, hlen⟩
    | cons t rest =>
      cases aOk with
      | false => simpa [applyQOp, task_dequeue_internal, hh] using ⟨hiff, hlen⟩
      | true =>
        constructor
        · cases rest with
          | nil => simp [applyQOp, task_dequeue_internal, hh]
          | cons r rs =>
            have htl : q.tail ≠ none := by
              intro hnone
              have := hiff.mpr hnone
              rw [hh] at this
              cases this
            simp only [applyQOp, task_dequeue_internal, hh]
            simp [htl]
        · simp [applyQOp, task_dequeue_internal, hh, hlen]
        
  | drainQ =>
    constructor <;> simp [applyQOp, task_queue_destroy_internal]

theorem qinv_foldl (ops : List QOp) (q : QueueState) (h : QInv q) :
    QInv (ops.foldl applyQOp q) := by
  induction ops generalizing q with
  | nil => exact h
  | cons op rest ih => exact ih _ (qinv_applyQOp q op h)

/-- Claim C10: every queue operation, applied in any order from the freshly
created queue, preserves the well-formedness invariant of the queue fields
of `thread_pool_s`: the head pointer is NULL exactly when the tail pointer
is NULL, exactly when the recorded `task_queue_size` is zero. -/
theorem c10_queue_wellformedness (ops : List QOp) : queueWF (runQOps ops) := by
  have h : QInv (runQOps ops) := by
    apply qinv_foldl
    exact ⟨by simp [emptyQueue], by simp [emptyQueue]⟩
  obtain ⟨hiff, hlen⟩ := h
  refine ⟨hiff, ?_⟩
  rw [hlen]
  constructor
  · intro hh
    simp [hh]
  · intro hh
    have : (runQOps ops).head.length = 0 := by exact_mod_cast hh
    exact List.length_eq_zero.mp this

/-- Claim C6: on allocation failure both queue operations leave the queue
fields exactly unchanged - `task_enqueue_internal` returns -1 without
appending anything, `task_dequeue_internal` on a failed copy allocation
returns NULL with the head node still in place (so a retry is possible) -
and `task_dequeue_internal` on an empty queue returns NULL with no side
effects, whatever the allocation outcome would have been. -/
theorem c6_queue_failure_no_side_effects :
    (∀ (q : QueueState) (t : task_t), task_enqueue_internal q t false = (-1, q)) ∧
    (∀ (tl : Option task_t) (n : Int) (aOk : Bool),
      task_dequeue_internal { head := [], tail := tl, task_queue_size := n } aOk
        = (none, { head := [], tail := tl, task_queue_size := n })) ∧
    (∀ q : QueueState, task_dequeue_internal q false = (none, q)) := by
  refine ⟨fun q t => rfl, fun tl n aOk => rfl, fun q => ?_⟩
  cases q with
  | mk h tl n => cases h <;> rfl

/-- Claim C9: `thread_pool_add_task` substitutes the default name
"unnamed_task" only when the name pointer is NULL; a non-NULL empty string
is stored verbatim, and any supplied name is stored truncated to its first
`MAX_TASK_NAME_LEN - 1` characters (the final buffer byte being the
explicitly written terminator). -/
theorem c9_task_name_default_and_truncation :
    prepare_task_name none = String.toList "unnamed_task" ∧
    prepare_task_name (some []) = [] ∧
    (∀ s : List Char, prepare_task_name (some s) = s.take (MAX_TASK_NAME_LEN - 1)) ∧
    (∀ s : List Char,
      (prepare_task_name (some s)).length = min (MAX_TASK_NAME_LEN - 1) s.length) := by
  refine ⟨rfl, rfl, fun s => rfl, fun s => ?_⟩
  simp [prepare_task_name]

/-- Claim C4: `thread_pool_add_task` returns failure exactly when the pool
handle is NULL, the function pointer is NULL, the shutdown flag is already
set, or the queue-node allocation fails; and every failure - the
shutdown rejection in particular - leaves the pool, its queue included,
completely unchanged. -/
theorem c4_add_task_failure_iff (pool : Option PoolState)
    (function : Option Nat) (arg : Nat) (task_name : Option (List Char))
    (allocOk : Bool) :
    ((thread_pool_add_task pool function arg task_name allocOk).1 = -1 ↔
      (pool = none ∨ function = none ∨ poolShutdown pool = true ∨
        allocOk = false)) ∧
    ((thread_pool_add_task pool function arg task_name allocOk).1 = -1 →
      (thread_pool_add_task pool function arg task_name allocOk).2 = pool) := by
  cases pool with
  | none => simp [thread_pool_add_task]
  | some p =>
    obtain ⟨tc, q, sh, st, names, fc⟩ := p
    cases function with
    | none => simp [thread_pool_add_task, poolShutdown]
    | some f =>
      cases sh with
      | true => simp [thread_pool_add_task, poolShutdown]
      | false =>
        cases allocOk with
        | false =>
          simp [thread_pool_add_task, poolShutdown, task_enqueue_internal]
        | true =>
          cases htl : q.tail <;>
            simp [thread_pool_add_task, poolShutdown,
              task_enqueue_internal, htl]

/-- Closed instantiation of the failure cases of claim C4: submitting to a
pool whose shutdown flag is set fails and enqueues nothing. -/
theorem c4_add_task_failure_iff_witness :
    (thread_pool_add_task (some demoPoolShut) (some 1) 0 none true).1 = -1 ∧
    (thread_pool_add_task (some demoPoolShut) (some 1) 0 none true).2
      = some demoPoolShut := by
  have h := c4_add_task_failure_iff (some demoPoolShut) (some 1) 0 none true
  refine ⟨h.1.mpr (Or.inr (Or.inr (Or.inl rfl))), h.2 ?_⟩
  exact h.1.mpr (Or.inr (Or.inr (Or.inl rfl)))

/-- Claim C5: `thread_pool_destroy` returns failure only for a NULL handle;
a call finding the shutdown flag already set returns success as a pure
no-op, so destroying the same handle twice returns success both times while
the destruction path releasing the pool's storage runs exactly once. -/
theorem c5_destroy_null_and_idempotent (p : PoolState)
    (h : p.shutdown = false) :
    thread_pool_destroy none = (-1, none) ∧
    (∀ q : PoolState, (thread_pool_destroy (some q)).1 = 0) ∧
    ((thread_pool_destroy (some p)).2.map PoolState.freeCount
      = some (p.freeCount + 1)) ∧
    thread_pool_destroy ((thread_pool_destroy (some p)).2)
      = (0, (thread_pool_destroy (some p)).2) := by
  refine ⟨rfl, fun q => ?_, ?_, ?_⟩
  · by_cases hq : q.shutdown <;> simp [thread_pool_destroy, hq]
  · simp [thread_pool_destroy, h]
  · simp [thread_pool_destroy, h]

/-- Closed instantiation of claim C5 at a concrete live pool. -/
theorem c5_destroy_null_and_idempotent_witness :
    demoPool.shutdown = false ∧
    (thread_pool_destroy none = (-1, none) ∧
    (∀ q : PoolState, (thread_pool_destroy (some q)).1 = 0) ∧
    ((thread_pool_destroy (some demoPool)).2.map PoolState.freeCount
      = some (demoPool.freeCount + 1)) ∧
    thread_pool_destroy ((thread_pool_destroy (some demoPool)).2)
      = (0, (thread_pool_destroy (some demoPool)).2)) :=
  ⟨rfl, c5_destroy_null_and_idempotent demoPool rfl⟩

/-- Claim C8: immediately after a successful `thread_pool_create k` with no
submissions, `thread_pool_get_running_task_names` returns an array of
exactly `k` strings, each equal to the idle sentinel "[idle]". -/
theorem c8_idle_reporting (k : Int) (h : 1 ≤ k) :
    thread_pool_get_running_task_names (thread_pool_create k)
      = some (List.replicate k.toNat (String.toList "[idle]")) ∧
    (List.replicate k.toNat (String.toList "[idle]")).length = k.toNat := by
  have hk : ¬k ≤ 0 := by omega
  have hidle : ((String.toList "[idle]").take (MAX_TASK_NAME_LEN - 1))
      = String.toList "[idle]" := rfl
  constructor
  · simp only [thread_pool_create, thread_pool_get_running_task_names, hk,
      if_false, List.map_replicate, hidle]
  · simp

/-- Closed instantiation of claim C8 at `k = 3`. -/
theorem c8_idle_reporting_witness :
    (1 : Int) ≤ 3 ∧
    (thread_pool_get_running_task_names (thread_pool_create 3)
      = some (List.replicate (3 : Int).toNat (String.toList "[idle]")) ∧
    (List.replicate (3 : Int).toNat (String.toList "[idle]")).length
      = (3 : Int).toNat) :=
  ⟨by decide, c8_idle_reporting 3 (by decide)⟩

theorem schedStep_inv {s s2 : SchedState} {e : Ev}
    (hs : SchedInv s) (h : schedStep s e = some s2) : SchedInv s2 := by
  obtain ⟨⟨hqiff, hqlen⟩, hled, hdisc, hsd, hex, hhd, hcnt⟩ := hs
  cases e with
  | submit t aOk =>
    simp only [schedStep] at h
    by_cases hd : s.destroyed = true
    · rw [if_pos hd] at h
      exact absurd h (by simp)
    · have hdf : s.destroyed = false := by
        cases hde : s.destroyed
        · rfl
        · exact absurd hde hd
      rw [if_neg hd] at h
      by_cases hsh : s.shutdown = true
      · rw [if_pos hsh] at h
        injection h with h
        subst h
        exact ⟨⟨hqiff, hqlen⟩, hled, hdisc, hsd, hex, hhd, hcnt⟩
      · rw [if_neg hsh] at h
        cases aOk with
        | false =>
          have he : task_enqueue_internal s.q t false = (-1, s.q) := rfl
          rw [he] at h
          rw [if_neg (by norm_num)] at h
          injection h with h
          subst h
          exact ⟨⟨hqiff, hqlen⟩, hled, hdisc, hsd, hex, hhd, hcnt⟩
        | true =>
          have hd0 : s.discLog = [] := hdisc hdf
          cases htl : s.q.tail with
          | none =>
            have hh0 : s.q.head = [] := hqiff.mpr htl
            have he : task_enqueue_internal s.q t true
                = (0, { head := [t], tail := some t,
                        task_queue_size := s.q.task_queue_size + 1 }) := by
              simp [task_enqueue_internal, htl]
            rw [he] at h
            rw [if_pos rfl] at h
            injection h with h
            subst h
            refine ⟨⟨by simp, ?_⟩, ?_, ?_, ?_, ?_, ?_, hcnt⟩
            · rw [hh0] at hqlen
              simp only [List.length_nil] at hqlen
              simp [hqlen]
            · rw [hled, hh0, hd0]
              simp
            · intro _
              exact hd0
            · intro hx
              rw [hdf] at hx
              cases hx
            · intro hx
              rw [hdf] at hx
              cases hx
            · intro hx
              rw [hdf] at hx
              cases hx
          | some u =>
            have he : task_enqueue_internal s.q t true
                = (0, { head := s.q.head ++ [t], tail := some t,
                        task_queue_size := s.q.task_queue_size + 1 }) := by
              simp [task_enqueue_internal, htl]
            rw [he] at h
            rw [if_pos rfl] at h
            injection h with h
            subst h
            refine ⟨⟨by simp, ?_⟩, ?_, ?_, ?_, ?_, ?_, hcnt⟩
            · simp [hqlen]
            · rw [hled, hd0]
              simp
            · intro _
              exact hd0
            · intro hx
              rw [hdf] at hx
              cases hx
            · intro hx
              rw [hdf] at hx
              cases hx
            · intro hx
              rw [hdf] at hx
              cases hx
  | dispatch w aOk =>
    simp only [schedStep] at h
    cases hw : s.workers.get? w with
    | none =>
      rw [hw] at h
      exact absurd h (by simp)
    | some p =>
      rw [hw] at h
      cases p with
      | running t => exact absurd h (by simp)
      | exited => exact absurd h (by simp)
      | atLoop =>
        have hdf : s.destroyed = false := by
          cases hde : s.destroyed
          · rfl
          · have := hex hde
            rw [allExited_false_of_atLoop s.workers w hw] at this
            cases this
        by_cases hz : s.q.task_queue_size = 0
        · rw [if_pos hz] at h
          exact absurd h (by simp)
        · rw [if_neg hz] at h
          cases hh : s.q.head with
          | nil =>
            rw [hh] at hqlen
            simp only [List.length_nil, Int.natCast_zero] at hqlen
            exact absurd hqlen hz
          | cons t rest =>
            cases aOk with
            | false =>
              have he : task_dequeue_internal s.q false = (none, s.q) := by
                simp [task_dequeue_internal, hh]
              rw [he] at h
              by_cases hsh : s.shutdown = true
              · rw [if_pos hsh] at h
                injection h with h
                subst h
                refine ⟨⟨hqiff, hqlen⟩, hled, hdisc, hsd, ?_, hhd, ?_⟩
                · intro hx
                  rw [hdf] at hx
                  cases hx
                · rw [hcnt, inflight_set_exit s.workers w hw]
              · rw [if_neg hsh] at h
                injection h with h
                subst h
                exact ⟨⟨hqiff, hqlen⟩, hled, hdisc, hsd, hex, hhd, hcnt⟩
            | true =>
              have he : task_dequeue_internal s.q true
                  = (some t,
                     { head := rest,
                       tail := if rest.isEmpty then none else s.q.tail,
                       task_queue_size := s.q.task_queue_size - 1 }) := by
                simp [task_dequeue_internal, hh]
              rw [he] at h
              injection h with h
              subst h
              have htl : s.q.tail ≠ none := by
                intro hn
                rw [hqiff.mpr hn] at hh
                cases hh
              refine ⟨⟨?_, ?_⟩, ?_, ?_, ?_, ?_, ?_, ?_⟩
              · cases rest with
                | nil => simp
                | cons r rs => simp [htl]
              · rw [hh] at hqlen
                simp only [List.length_cons] at hqlen
                simp only [hqlen]
                push_cast
                ring
              · rw [hled, hh]
                simp
              · intro _
                exact hdisc hdf
              · intro hx
                rw [hdf] at hx
                cases hx
              · intro hx
                rw [hdf] at hx
                cases hx
              · intro hx
                rw [hdf] at hx
                cases hx
              · rw [List.length_append, hcnt,
                  inflight_set_run s.workers w t hw]
                simp
                omega
  | complete w =>
    simp only [schedStep] at h
    cases hw : s.workers.get? w with
    | none =>
      rw [hw] at h
      exact absurd h (by simp)
    | some p =>
      rw [hw] at h
      cases p with
      | atLoop => exact absurd h (by simp)
      | exited => exact absurd h (by simp)
      | running t =>
        have hdf : s.destroyed = false := by
          cases hde : s.destroyed
          · rfl
          · have := hex hde
            rw [allExited_false_of_running s.workers w t hw] at this
            cases this
        injection h with h
        subst h
        refine ⟨⟨hqiff, hqlen⟩, hled, hdisc, hsd, ?_, hhd, ?_⟩
        · intro hx
          rw [hdf] at hx
          cases hx
        · rw [hcnt, inflight_set_fin s.workers w t hw, List.length_append]
          simp
          omega
  | exitWorker w =>
    simp only [schedStep] at h
    cases hw : s.workers.get? w with
    | none =>
      rw [hw] at h
      exact absurd h (by simp)
    | some p =>
      rw [hw] at h
      cases p with
      | running t => exact absurd h (by simp)
      | exited => exact absurd h (by simp)
      | atLoop =>
        have hdf : s.destroyed = false := by
          cases hde : s.destroyed
          · rfl
          · have := hex hde
            rw [allExited_false_of_atLoop s.workers w hw] at this
            cases this
        by_cases hc : (s.shutdown && s.q.task_queue_size = 0) = true
        · rw [if_pos hc] at h
          injection h with h
          subst h
          refine ⟨⟨hqiff, hqlen⟩, hled, hdisc, hsd, ?_, hhd, ?_⟩
          · intro hx
            rw [hdf] at hx
            cases hx
          · rw [hcnt, inflight_set_exit s.workers w hw]
        · rw [if_neg hc] at h
          exact absurd h (by simp)
  | setShutdown =>
    simp only [schedStep] at h
    by_cases hd : s.destroyed = true
    · rw [if_pos hd] at h
      exact absurd h (by simp)
    · have hdf : s.destroyed = false := by
        cases hde : s.destroyed
        · rfl
        · exact absurd hde hd
      rw [if_neg hd] at h
      by_cases hsh : s.shutdown = true
      · rw [if_pos hsh] at h
        injection h with h
        subst h
        exact ⟨⟨hqiff, hqlen⟩, hled, hdisc, hsd, hex, hhd, hcnt⟩
      · rw [if_neg hsh] at h
        injection h with h
        subst h
        refine ⟨⟨hqiff, hqlen⟩, hled, hdisc, ?_, ?_, ?_, hcnt⟩
        · intro _
          rfl
        · intro hx
          rw [hdf] at hx
          cases hx
        · intro hx
          rw [hdf] at hx
          cases hx
  | drain =>
    simp only [schedStep] at h
    by_cases hc : (s.shutdown && allExited s.workers && !s.destroyed) = true
    · rw [if_pos hc] at h
      injection h with h
      subst h
      simp only [Bool.and_eq_true, Bool.not_eq_true'] at hc
      obtain ⟨⟨hsh, hae⟩, hnd⟩ := hc
      have hd0 : s.discLog = [] := hdisc hnd
      refine ⟨⟨by simp [task_queue_destroy_internal], ?_⟩, ?_, ?_, ?_, ?_, ?_,
        hcnt⟩
      · simp [task_queue_destroy_internal]
      · rw [hled, hd0]
        simp [task_queue_destroy_internal]
      · intro hx
        cases hx
      · intro _
        exact hsh
      · intro _
        exact hae
      · intro _
        simp [task_queue_destroy_internal]
    · rw [if_neg hc] at h
      exact absurd h (by simp)

theorem schedInv_init (k : Nat) : SchedInv (initSched k) := by
  refine ⟨⟨by simp [initSched, emptyQueue], by simp [initSched, emptyQueue]⟩,
    by simp [initSched, emptyQueue], fun _ => rfl, ?_, ?_, ?_, ?_⟩
  · intro hx
    cases hx
  · intro hx
    cases hx
  · intro hx
    cases hx
  · have : inflight (List.replicate k WorkerPhase.atLoop) = [] := by
      induction k with
      | zero => rfl
      | succ n ih => simpa [List.replicate, inflight] using ih
    simp [initSched, this]

theorem schedRun_inv {s s2 : SchedState} {evs : List Ev}
    (hs : SchedInv s) (h : schedRun s evs = some s2) : SchedInv s2 := by
  induction evs generalizing s with
  | nil =>
    simp only [schedRun] at h
    injection h with h
    subst h
    exact hs
  | cons e rest ih =>
    simp only [schedRun] at h
    cases hstep : schedStep s e with
    | none =>
      rw [hstep] at h
      exact absurd h (by simp)
    | some s1 =>
      rw [hstep] at h
      exact ih (schedStep_inv hs hstep) h

theorem allExited_replicate_atLoop_false (k : Nat) (hk : 1 ≤ k) :
    allExited (List.replicate k WorkerPhase.atLoop) = false := by
  cases k with
  | zero => omega
  | succ n => rfl

theorem schedStepA {s s2 : SchedState} {e : Ev}
    (hs : SchedInvA s) (hok : evAllocOk e = true)
    (h : schedStep s e = some s2) : SchedInvA s2 := by
  obtain ⟨hb, hes, heh, hde⟩ := hs
  have hb2 : SchedInv s2 := schedStep_inv hb h
  obtain ⟨⟨hqiff, hqlen⟩, hled, hdisc, hsd, hex, hhd, hcnt⟩ := hb
  cases e with
  | submit t aOk =>
    simp only [evAllocOk] at hok
    subst hok
    simp only [schedStep] at h
    by_cases hd : s.destroyed = true
    · rw [if_pos hd] at h
      exact absurd h (by simp)
    · rw [if_neg hd] at h
      by_cases hsh : s.shutdown = true
      · rw [if_pos hsh] at h
        injection h with h
        subst h
        exact ⟨hb2, hes, heh, hde⟩
      · rw [if_neg hsh] at h
        have hna : allExited s.workers = false := by
          cases hae : allExited s.workers
          · rfl
          · exact absurd (hes hae) hsh
        cases htl : s.q.tail with
        | none =>
          have he : task_enqueue_internal s.q t true
              = (0, { head := [t], tail := some t,
                      task_queue_size := s.q.task_queue_size + 1 }) := by
            simp [task_enqueue_internal, htl]
          rw [he] at h
          rw [if_pos rfl] at h
          injection h with h
          subst h
          refine ⟨hb2, ?_, ?_, hde⟩
          · intro hx
            rw [hna] at hx
            cases hx
          · intro hx
            rw [hna] at hx
            cases hx
        | some u =>
          have he : task_enqueue_internal s.q t true
              = (0, { head := s.q.head ++ [t], tail := some t,
                      task_queue_size := s.q.task_queue_size + 1 }) := by
            simp [task_enqueue_internal, htl]
          rw [he] at h
          rw [if_pos rfl] at h
          injection h with h
          subst h
          refine ⟨hb2, ?_, ?_, hde⟩
          · intro hx
            rw [hna] at hx
            cases hx
          · intro hx
            rw [hna] at hx
            cases hx
  | dispatch w aOk =>
    simp only [evAllocOk] at hok
    subst hok
    simp only [schedStep] at h
    cases hw : s.workers.get? w with
    | none =>
      rw [hw] at h
      exact absurd h (by simp)
    | some p =>
      rw [hw] at h
      cases p with
      | running t => exact absurd h (by simp)
      | exited => exact absurd h (by simp)
      | atLoop =>
        by_cases hz : s.q.task_queue_size = 0
        · rw [if_pos hz] at h
          exact absurd h (by simp)
        · rw [if_neg hz] at h
          cases hh : s.q.head with
          | nil =>
            rw [hh] at hqlen
            simp only [List.length_nil, Int.natCast_zero] at hqlen
            exact absurd hqlen hz
          | cons t rest =>
            have he : task_dequeue_internal s.q true
                = (some t,
                   { head := rest,
                     tail := if rest.isEmpty then none else s.q.tail,
                     task_queue_size := s.q.task_queue_size - 1 }) := by
              simp [task_dequeue_internal, hh]
            rw [he] at h
            injection h with h
            subst h
            have hget : (s.workers.set w (WorkerPhase.running t)).get? w
                = some (WorkerPhase.running t) :=
              list_get_set_self s.workers w _ _ hw
            have hna : allExited (s.workers.set w (WorkerPhase.running t))
                = false :=
              allExited_false_of_running _ w t hget
            refine ⟨hb2, ?_, ?_, hde⟩
            · intro hx
              rw [hna] at hx
              cases hx
            · intro hx
              rw [hna] at hx
              cases hx
  | complete w =>
    simp only [schedStep] at h
    cases hw : s.workers.get? w with
    | none =>
      rw [hw] at h
      exact absurd h (by simp)
    | some p =>
      rw [hw] at h
      cases p with
      | atLoop => exact absurd h (by simp)
      | exited => exact absurd h (by simp)
      | running t =>
        injection h with h
        subst h
        have hget : (s.workers.set w WorkerPhase.atLoop).get? w
            = some WorkerPhase.atLoop :=
          list_get_set_self s.workers w _ _ hw
        have hna : allExited (s.workers.set w WorkerPhase.atLoop) = false :=
          allExited_false_of_atLoop _ w hget
        refine ⟨hb2, ?_, ?_, hde⟩
        · intro hx
          rw [hna] at hx
          cases hx
        · intro hx
          rw [hna] at hx
          cases hx
  | exitWorker w =>
    simp only [schedStep] at h
    cases hw : s.workers.get? w with
    | none =>
      rw [hw] at h
      exact absurd h (by simp)
    | some p =>
      rw [hw] at h
      cases p with
      | running t => exact absurd h (by simp)
      | exited => exact absurd h (by simp)
      | atLoop =>
        by_cases hc : (s.shutdown && s.q.task_queue_size = 0) = true
        · rw [if_pos hc] at h
          injection h with h
          subst h
          simp only [Bool.and_eq_true, decide_eq_true_eq] at hc
          obtain ⟨hsh, hz⟩ := hc
          have hhd0 : s.q.head = [] := by
            rw [hz] at hqlen
            have : s.q.head.length = 0 := by exact_mod_cast hqlen.symm
            exact List.length_eq_zero.mp this
          exact ⟨hb2, fun _ => hsh, fun _ => hhd0, hde⟩
        · rw [if_neg hc] at h
          exact absurd h (by simp)
  | setShutdown =>
    simp only [schedStep] at h
    by_cases hd : s.destroyed = true
    · rw [if_pos hd] at h
      exact absurd h (by simp)
    · rw [if_neg hd] at h
      by_cases hsh : s.shutdown = true
      · rw [if_pos hsh] at h
        injection h with h
        subst h
        exact ⟨hb2, hes, heh, hde⟩
      · rw [if_neg hsh] at h
        injection h with h
        subst h
        have hna : allExited s.workers = false := by
          cases hae : allExited s.workers
          · rfl
          · exact absurd (hes hae) hsh
        refine ⟨hb2, fun _ => rfl, ?_, hde⟩
        · intro hx
          rw [hna] at hx
          cases hx
  | drain =>
    simp only [schedStep] at h
    by_cases hc : (s.shutdown && allExited s.workers && !s.destroyed) = true
    · rw [if_pos hc] at h
      injection h with h
      subst h
      simp only [Bool.and_eq_true, Bool.not_eq_true'] at hc
      obtain ⟨⟨hsh, hae⟩, hnd⟩ := hc
      refine ⟨hb2, fun _ => hsh, ?_, ?_⟩
      · intro _
        simp [task_queue_destroy_internal]
      · rw [hde, heh hae]
        rfl
    · rw [if_neg hc] at h
      exact absurd h (by simp)

theorem schedRunA {s s2 : SchedState} {evs : List Ev}
    (hs : SchedInvA s) (hok : ∀ e ∈ evs, evAllocOk e = true)
    (h : schedRun s evs = some s2) : SchedInvA s2 := by
  induction evs generalizing s with
  | nil =>
    simp only [schedRun] at h
    injection h with h
    subst h
    exact hs
  | cons e rest ih =>
    simp only [schedRun] at h
    cases hstep : schedStep s e with
    | none =>
      rw [hstep] at h
      exact absurd h (by simp)
    | some s1 =>
      rw [hstep] at h
      have h1 : SchedInvA s1 :=
        schedStepA hs (hok e (by simp)) hstep
      exact ih h1 (fun x hx => hok x (by simp [hx])) h

theorem schedInvA_init (k : Nat) (hk : 1 ≤ k) : SchedInvA (initSched k) := by
  refine ⟨schedInv_init k, ?_, ?_, rfl⟩
  · intro hx
    rw [show allExited (initSched k).workers = false from
      allExited_replicate_atLoop_false k hk] at hx
    cases hx
  · intro hx
    rw [show allExited (initSched k).workers = false from
      allExited_replicate_atLoop_false k hk] at hx
    cases hx

theorem schedStep1 {s s2 : SchedState} {e : Ev}
    (hs : SchedInv1 s) (h : schedStep s e = some s2) : SchedInv1 s2 := by
  obtain ⟨hb, h1, hord⟩ := hs
  have hb2 : SchedInv s2 := schedStep_inv hb h
  obtain ⟨⟨hqiff, hqlen⟩, hled, hdisc, hsd, hex, hhd, hcnt⟩ := hb
  obtain ⟨p, hp⟩ : ∃ p, s.workers = [p] := by
    cases hws : s.workers with
    | nil =>
      rw [hws] at h1
      simp at h1
    | cons a as =>
      rw [hws] at h1
      simp only [List.length_cons] at h1
      have hnil : as = [] := List.length_eq_zero.mp (by omega)
      exact ⟨a, by rw [hnil]⟩
  cases e with
  | submit t aOk =>
    simp only [schedStep] at h
    by_cases hd : s.destroyed = true
    · rw [if_pos hd] at h
      exact absurd h (by simp)
    · rw [if_neg hd] at h
      by_cases hsh : s.shutdown = true
      · rw [if_pos hsh] at h
        injection h with h
        subst h
        exact ⟨hb2, h1, hord⟩
      · rw [if_neg hsh] at h
        cases aOk with
        | false =>
          have he : task_enqueue_internal s.q t false = (-1, s.q) := rfl
          rw [he, if_neg (by norm_num)] at h
          injection h with h
          subst h
          exact ⟨hb2, h1, hord⟩
        | true =>
          cases htl : s.q.tail with
          | none =>
            have he : task_enqueue_internal s.q t true
                = (0, { head := [t], tail := some t,
                        task_queue_size := s.q.task_queue_size + 1 }) := by
              simp [task_enqueue_internal, htl]
            rw [he, if_pos rfl] at h
            injection h with h
            subst h
            exact ⟨hb2, h1, hord⟩
          | some u =>
            have he : task_enqueue_internal s.q t true
                = (0, { head := s.q.head ++ [t], tail := some t,
                        task_queue_size := s.q.task_queue_size + 1 }) := by
              simp [task_enqueue_internal, htl]
            rw [he, if_pos rfl] at h
            injection h with h
            subst h
            exact ⟨hb2, h1, hord⟩
  | dispatch w aOk =>
    simp only [schedStep] at h
    cases hw : s.workers.get? w with
    | none =>
      rw [hw] at h
      exact absurd h (by simp)
    | some pp =>
      rw [hw] at h
      rw [hp] at hw
      cases w with
      | succ n =>
        have hnone : ([p].get? (n + 1)) = none := rfl
        rw [hnone] at hw
        cases hw
      | zero =>
        injection hw with hw
        subst hw
        cases p with
        | running t => exact absurd h (by simp)
        | exited => exact absurd h (by simp)
        | atLoop =>
          have hinf : inflight s.workers = [] := by
            rw [hp]
            rfl
          have hdc : s.deqLog = s.compLog := by
            rw [hord, hinf, List.append_nil]
          by_cases hz : s.q.task_queue_size = 0
          · rw [if_pos hz] at h
            exact absurd h (by simp)
          · rw [if_neg hz] at h
            cases hh : s.q.head with
            | nil =>
              rw [hh] at hqlen
              simp only [List.length_nil, Int.natCast_zero] at hqlen
              exact absurd hqlen hz
            | cons t rest =>
              cases aOk with
              | false =>
                have he : task_dequeue_internal s.q false = (none, s.q) := by
                  simp [task_dequeue_internal, hh]
                rw [he] at h
                by_cases hsh : s.shutdown = true
                · rw [if_pos hsh] at h
                  injection h with h
                  subst h
                  refine ⟨hb2, ?_, ?_⟩
                  · show (s.workers.set 0 WorkerPhase.exited).length = 1
                    rw [hp]
                    rfl
                  · show s.deqLog
                      = s.compLog ++ inflight (s.workers.set 0 WorkerPhase.exited)
                    rw [hp]
                    simpa [inflight] using hdc
                · rw [if_neg hsh] at h
                  injection h with h
                  subst h
                  exact ⟨hb2, h1, hord⟩
              | true =>
                have he : task_dequeue_internal s.q true
                    = (some t,
                       { head := rest,
                         tail := if rest.isEmpty then none else s.q.tail,
                         task_queue_size := s.q.task_queue_size - 1 }) := by
                  simp [task_dequeue_internal, hh]
                rw [he] at h
                injection h with h
                subst h
                refine ⟨hb2, ?_, ?_⟩
                · show (s.workers.set 0 (WorkerPhase.running t)).length = 1
                  rw [hp]
                  rfl
                · show s.deqLog ++ [t]
                    = s.compLog
                      ++ inflight (s.workers.set 0 (WorkerPhase.running t))
                  rw [hp, hdc]
                  rfl
  | complete w =>
    simp only [schedStep] at h
    cases hw : s.workers.get? w with
    | none =>
      rw [hw] at h
      exact absurd h (by simp)
    | some pp =>
      rw [hw] at h
      rw [hp] at hw
      cases w with
      | succ n =>
        have hnone : ([p].get? (n + 1)) = none := rfl
        rw [hnone] at hw
        cases hw
      | zero =>
        injection hw with hw
        subst hw
        cases p with
        | atLoop => exact absurd h (by simp)
        | exited => exact absurd h (by simp)
        | running t =>
          have hinf : inflight s.workers = [t] := by
            rw [hp]
            rfl
          injection h with h
          subst h
          refine ⟨hb2, ?_, ?_⟩
          · show (s.workers.set 0 WorkerPhase.atLoop).length = 1
            rw [hp]
            rfl
          · show s.deqLog
              = s.compLog ++ [t] ++ inflight (s.workers.set 0 WorkerPhase.atLoop)
            rw [hp, hord, hinf]
            simp [inflight]
  | exitWorker w =>
    simp only [schedStep] at h
    cases hw : s.workers.get? w with
    | none =>
      rw [hw] at h
      exact absurd h (by simp)
    | some pp =>
      rw [hw] at h
      rw [hp] at hw
      cases w with
      | succ n =>
        have hnone : ([p].get? (n + 1)) = none := rfl
        rw [hnone] at hw
        cases hw
      | zero =>
        injection hw with hw
        subst hw
        cases p with
        | running t => exact absurd h (by simp)
        | exited => exact absurd h (by simp)
        | atLoop =>
          have hinf : inflight s.workers = [] := by
            rw [hp]
            rfl
          by_cases hc : (s.shutdown && s.q.task_queue_size = 0) = true
          · rw [if_pos hc] at h
            injection h with h
            subst h
            refine ⟨hb2, ?_, ?_⟩
            · show (s.workers.set 0 WorkerPhase.exited).length = 1
              rw [hp]
              rfl
            · show s.deqLog
                = s.compLog ++ inflight (s.workers.set 0 WorkerPhase.exited)
              rw [hp]
              simpa [inflight] using hord.trans (by rw [hinf, List.append_nil])
          · rw [if_neg hc] at h
            exact absurd h (by simp)
  | setShutdown =>
    simp only [schedStep] at h
    by_cases hd : s.destroyed = true
    · rw [if_pos hd] at h
      exact absurd h (by simp)
    · rw [if_neg hd] at h
      by_cases hsh : s.shutdown = true
      · rw [if_pos hsh] at h
        injection h with h
        subst h
        exact ⟨hb2, h1, hord⟩
      · rw [if_neg hsh] at h
        injection h with h
        subst h
        exact ⟨hb2, h1, hord⟩
  | drain =>
    simp only [schedStep] at h
    by_cases hc : (s.shutdown && allExited s.workers && !s.destroyed) = true
    · rw [if_pos hc] at h
      injection h with h
      subst h
      exact ⟨hb2, h1, hord⟩
    · rw [if_neg hc] at h
      exact absurd h (by simp)

theorem schedRun1 {s s2 : SchedState} {evs : List Ev}
    (hs : SchedInv1 s) (h : schedRun s evs = some s2) : SchedInv1 s2 := by
  induction evs generalizing s with
  | nil =>
    simp only [schedRun] at h
    injection h with h
    subst h
    exact hs
  | cons e rest ih =>
    simp only [schedRun] at h
    cases hstep : schedStep s e with
    | none =>
      rw [hstep] at h
      exact absurd h (by simp)
    | some s1 =>
      rw [hstep] at h
      exact ih (schedStep1 hs hstep) h

theorem schedInv1_init : SchedInv1 (initSched 1) :=
  ⟨schedInv_init 1, rfl, rfl⟩

/-- Claim C1 (refuted, code bug): with one worker, task `tskA` is still in
the queue - submitted but not yet dequeued - at the moment
`thread_pool_destroy` sets the shutdown flag (first conjunct), yet
continuing the very same execution the worker dequeues `tskA`, invokes its
action and completes it before exiting, and the destroy-time drain
discards nothing (second conjunct).  The loop-exit test of
`worker_thread_function` requires `shutdown && task_queue_size == 0`, so
workers execute the tasks left in the queue after the flag is set, while
the documentation of `thread_pool_destroy` states that remaining queued
tasks are discarded. -/
theorem c1_queued_task_executed_after_shutdown :
    (schedRun (initSched 1) [Ev.submit tskA true, Ev.setShutdown]).map
        (fun s => (s.q.head, s.shutdown, s.deqLog))
      = some ([tskA], true, []) ∧
    (schedRun (initSched 1) c1Events).map
        (fun s => (s.deqLog, s.compLog, s.discLog, s.destroyed))
      = some ([tskA], [tskA], [], true) :=
  ⟨rfl, rfl⟩

/-- Counterexample to claim C2 as stated: one successful submit followed by
a complete Destroy (the final state has `destroyed = true`), but the
worker's dequeue hits a malloc failure after the flag is set, so it exits
and the task is discarded - 1 successful submit, 0 actions invoked. -/
theorem c2_conservation_counterexample :
    (schedRun (initSched 1) c2CexEvents).map
        (fun s => (s.enqLog.length, s.deqLog.length, s.compLog.length,
          s.destroyed))
      = some (1, 0, 0, true) ∧ (1 : Nat) ≠ 0 :=
  ⟨rfl, by decide⟩

/-- Claim C2 (amended): for a pool with at least one worker and any event
interleaving of successful submits and one Destroy in which every
allocation succeeds, once Destroy has completed (`destroyed = true`) the
number of dequeued-and-invoked actions - and likewise the number of
completed actions - equals the number of successful submits. -/
theorem c2_conservation (k : Nat) (evs : List Ev) (s : SchedState)
    (hk : 1 ≤ k) (hok : noAllocFailures evs = true)
    (hrun : schedRun (initSched k) evs = some s)
    (hdone : s.destroyed = true) :
    s.deqLog.length = s.enqLog.length ∧
    s.compLog.length = s.enqLog.length := by
  have hA : SchedInvA s := by
    refine schedRunA (schedInvA_init k hk) ?_ hrun
    intro e he
    simp only [noAllocFailures, List.all_eq_true] at hok
    exact hok e he
  obtain ⟨⟨⟨hqiff, hqlen⟩, hled, hdisc, hsd, hex, hhd, hcnt⟩, hes, heh, hde⟩ :=
    hA
  have hh0 : s.q.head = [] := hhd hdone
  have hlen : s.enqLog = s.deqLog := by
    rw [hled, hh0, hde]
    simp
  have hinf : inflight s.workers = [] :=
    inflight_nil_of_allExited _ (hex hdone)
  refine ⟨by rw [hlen], ?_⟩
  rw [hlen, hcnt, hinf]
  simp

/-- Closed instantiation of the amended claim C2: two submits, a Destroy
that drains both tasks, every allocation succeeding. -/
theorem c2_conservation_witness :
    1 ≤ 1 ∧ noAllocFailures c2WitEvents = true ∧
    ((schedRun (initSched 1) c2WitEvents).getD (initSched 1)).destroyed
      = true ∧
    (((schedRun (initSched 1) c2WitEvents).getD (initSched 1)).deqLog.length
      = ((schedRun (initSched 1) c2WitEvents).getD (initSched 1)).enqLog.length ∧
    ((schedRun (initSched 1) c2WitEvents).getD (initSched 1)).compLog.length
      = ((schedRun (initSched 1) c2WitEvents).getD (initSched 1)).enqLog.length) :=
  ⟨by decide, by decide, by decide,
    c2_conservation 1 c2WitEvents _ (by decide) (by decide) rfl (by decide)⟩

/-- Claim C3: the queue is FIFO and a single worker serialises execution,
so in any single-worker execution in which every submitted task has
completed, the completion order is exactly the submission order. -/
theorem c3_fifo_completion_order (evs : List Ev) (s : SchedState)
    (hrun : schedRun (initSched 1) evs = some s)
    (hall : s.compLog.length = s.enqLog.length) :
    s.compLog = s.enqLog := by
  obtain ⟨⟨⟨hqiff, hqlen⟩, hled, hdisc, hsd, hex, hhd, hcnt⟩, h1, hord⟩ :=
    schedRun1 schedInv1_init hrun
  rw [hord] at hled
  have hlen := congrArg List.length hled
  simp only [List.length_append] at hlen
  have hinf : (inflight s.workers).length = 0 := by omega
  have hhd0 : s.q.head.length = 0 := by omega
  have hdc0 : s.discLog.length = 0 := by omega
  rw [hled, List.length_eq_zero.mp hinf, List.length_eq_zero.mp hhd0,
    List.length_eq_zero.mp hdc0]
  simp

/-- Closed instantiation of claim C3: two tasks through one worker complete
in submission order. -/
theorem c3_fifo_completion_order_witness :
    ((schedRun (initSched 1) c3WitEvents).getD (initSched 1)).compLog.length
      = ((schedRun (initSched 1) c3WitEvents).getD (initSched 1)).enqLog.length ∧
    ((schedRun (initSched 1) c3WitEvents).getD (initSched 1)).compLog
      = ((schedRun (initSched 1) c3WitEvents).getD (initSched 1)).enqLog :=
  ⟨by decide, c3_fifo_completion_order c3WitEvents _ rfl (by decide)⟩

/-- Counterexample to claim C7 as stated: a reachable execution (two
enqueue calls, one successful dequeue, then a dequeue allocation failure
under shutdown and the destroy-time drain) whose final recorded queue
length is 0 while enqueue calls minus successful dequeues is 2 - 1 = 1. -/
theorem c7_accounting_counterexample :
    (schedRun (initSched 1) c7CexEvents).map
        (fun s => (s.q.task_queue_size, s.enqCalls, s.deqLog.length))
      = some (0, 2, 1) ∧ (0 : Int) ≠ 2 - 1 :=
  ⟨rfl, by decide⟩

/-- Claim C7 (amended): in every reachable pool state the recorded queue
length equals the number of successful enqueues minus the number of
successful dequeues minus the number of tasks discarded by the
destroy-time drain; in particular, before the drain has run it equals
successful enqueues minus successful dequeues exactly. -/
theorem c7_queue_length_accounting (k : Nat) (evs : List Ev) (s : SchedState)
    (hrun : schedRun (initSched k) evs = some s) :
    s.q.task_queue_size
        = (s.enqLog.length : Int) - (s.deqLog.length : Int)
          - (s.discLog.length : Int) ∧
    (s.destroyed = false →
      s.q.task_queue_size
        = (s.enqLog.length : Int) - (s.deqLog.length : Int)) := by
  obtain ⟨⟨hqiff, hqlen⟩, hled, hdisc, hsd, hex, hhd, hcnt⟩ :=
    schedRun_inv (schedInv_init k) hrun
  have hlen := congrArg List.length hled
  simp only [List.length_append] at hlen
  constructor
  · rw [hqlen]
    omega
  · intro hdf
    have hd0 : s.discLog = [] := hdisc hdf
    rw [hd0] at hlen
    rw [hqlen]
    simp only [List.length_nil] at hlen
    omega

/-- Closed instantiation of the amended claim C7: after one successful
enqueue and one successful dequeue the recorded length is 1 - 1 = 0. -/
theorem c7_queue_length_accounting_witness :
    ((schedRun (initSched 1) c7WitEvents).getD (initSched 1)).q.task_queue_size
      = (((schedRun (initSched 1) c7WitEvents).getD
            (initSched 1)).enqLog.length : Int)
        - (((schedRun (initSched 1) c7WitEvents).getD
            (initSched 1)).deqLog.length : Int)
        - (((schedRun (initSched 1) c7WitEvents).getD
            (initSched 1)).discLog.length : Int) :=
  (c7_queue_length_accounting 1 c7WitEvents _ rfl).1
